import Mathlib

/-!
Verification of the currencies time-series cache (`src/db.rs`, `src/fetcher.rs`).

The development shallowly embeds the storage/reconciliation core:
  * `date_as_key` — the order-preserving date-key codec (chrono parse +
    midnight-UTC Unix timestamp, 8-byte big-endian two's complement);
  * the sled store, modelled as an association list from byte keys to
    stored records, together with an explicit trace of write events;
  * `bootstrap_new` — first-run population from the full remote history;
  * `update` — the periodic reconciliation tick.
Remote fetches are inputs (`Except`-valued parameters), since the HTTP
layer is an external collaborator.
-/

namespace Currencies

/-! ## Calendar dates (chrono `NaiveDate`) -/

/-- A proleptic-Gregorian calendar date, as chrono's `NaiveDate`. -/
structure CalDate where
  year : Int
  month : Int
  day : Int
deriving DecidableEq, Repr

/-- Gregorian leap-year rule. -/
def isLeap (y : Int) : Prop := (y % 4 = 0 ∧ y % 100 ≠ 0) ∨ y % 400 = 0

instance (y : Int) : Decidable (isLeap y) := by unfold isLeap; infer_instance

/-- Number of days of month `m` in year `y`. -/
def daysInMonth (y m : Int) : Int :=
  if m = 2 then (if isLeap y then 29 else 28)
  else if m = 4 ∨ m = 6 ∨ m = 9 ∨ m = 11 then 30
  else 31

/-- The dates representable by chrono's `NaiveDate`
(years `-262144` to `262143`, valid month and day-of-month). -/
def validDate (d : CalDate) : Prop :=
  -262144 ≤ d.year ∧ d.year ≤ 262143 ∧
  1 ≤ d.month ∧ d.month ≤ 12 ∧
  1 ≤ d.day ∧ d.day ≤ daysInMonth d.year d.month

instance (d : CalDate) : Decidable (validDate d) := by unfold validDate; infer_instance

/-- Chronological strict order on dates (chrono's `Ord` on `NaiveDate`). -/
def dateLt (a b : CalDate) : Prop :=
  a.year < b.year ∨ (a.year = b.year ∧
    (a.month < b.month ∨ (a.month = b.month ∧ a.day < b.day)))

instance (a b : CalDate) : Decidable (dateLt a b) := by unfold dateLt; infer_instance

/-- Chronological reflexive order on dates. -/
def dateLe (a b : CalDate) : Prop := dateLt a b ∨ a = b

instance (a b : CalDate) : Decidable (dateLe a b) := by unfold dateLe; infer_instance

/-- Days from the Unix epoch 1970-01-01 to the given civil date
(the value of chrono's `NaiveDate` day arithmetic; Howard Hinnant's
`days_from_civil` with the March-based shifted year). -/
def daysFromCivil (y m d : Int) : Int :=
  let ys := if m ≤ 2 then y - 1 else y
  let mp := if m ≤ 2 then m + 9 else m - 3
  let era := ys / 400
  let yoe := ys % 400
  era * 146097 + yoe * 365 + yoe / 4 - yoe / 100 + (153 * mp + 2) / 5 + d - 1 - 719468

/-- Days from the epoch for a `CalDate`. -/
def dateDays (d : CalDate) : Int := daysFromCivil d.year d.month d.day

/-- `NaiveDate::and_hms(0,0,0).timestamp()`: seconds since the Unix epoch
at midnight UTC of the given date (an `i64` in the source). -/
def dateTimestamp (d : CalDate) : Int := dateDays d * 86400

/-! ## Byte-level key encoding -/

/-- Big-endian base-256 digits of `n`, `w` bytes wide (`i64::to_be_bytes`
applied to `n < 256^w`). -/
def beBytes : Nat → Nat → List Nat
  | 0, _ => []
  | w + 1, n => n / 256 ^ w :: beBytes w (n % 256 ^ w)

/-- Strict byte-lexicographic order on byte strings (the ordering sled
uses on raw keys, i.e. `Ord` on `Vec<u8>`). -/
def lexLt : List Nat → List Nat → Prop
  | [], [] => False
  | [], _ :: _ => True
  | _ :: _, [] => False
  | a :: as, b :: bs => a < b ∨ (a = b ∧ lexLt as bs)

instance : (a b : List Nat) → Decidable (lexLt a b)
  | [], [] => .isFalse (fun h => h)
  | [], _ :: _ => .isTrue trivial
  | _ :: _, [] => .isFalse (fun h => h)
  | a :: as, b :: bs =>
    have : Decidable (lexLt as bs) := instDecidableLexLt as bs
    by unfold lexLt; infer_instance

/-- Reflexive byte-lexicographic order. -/
def lexLe (a b : List Nat) : Prop := lexLt a b ∨ a = b

instance (a b : List Nat) : Decidable (lexLe a b) := by unfold lexLe; infer_instance

/-- Encoding of a (parsed) date as a store key: the `i64` timestamp,
big-endian, i.e. the timestamp reduced mod `2^64` written as 8 bytes. -/
def encodeKey (d : CalDate) : List Nat :=
  beBytes 8 (dateTimestamp d % (2 ^ 64 : Int)).toNat

/-- The sentinel key `b"current"` holding the current pointer. -/
def currentKey : List Nat := [99, 117, 114, 114, 101, 110, 116]

/-! ## Errors (`crate::errors::Error`, as used by `db.rs`) -/

/-- The error type as used by `db.rs`: date-parse failures, database
failures and fetcher failures, each carrying a message. -/
inductive Error where
  | DateParseError (msg : String)
  | DatabaseError (msg : String)
  | FetcherError (msg : String)
deriving DecidableEq, Repr

instance {ε α : Type} [DecidableEq ε] [DecidableEq α] : DecidableEq (Except ε α) :=
  fun a b =>
  match a, b with
  | .error e1, .error e2 =>
    if h : e1 = e2 then .isTrue (by rw [h]) else .isFalse (by intro hc; cases hc; exact h rfl)
  | .ok a1, .ok a2 =>
    if h : a1 = a2 then .isTrue (by rw [h]) else .isFalse (by intro hc; cases hc; exact h rfl)
  | .error _, .ok _ => .isFalse (by intro hc; cases hc)
  | .ok _, .error _ => .isFalse (by intro hc; cases hc)

/-! ## Remote data model (`fetcher::Date`, `fetcher::Currency`) -/

/-- One currency entry of a snapshot (`fetcher::Currency`); the `f64`
rate is modelled as a rational, no arithmetic is performed on it in the
storage core. -/
structure Currency where
  name : String
  rate : Rat
deriving DecidableEq, Repr

/-- One dated rate snapshot (`fetcher::Date`): the raw date string from
the feed plus the list of currency entries. -/
structure DateEntry where
  value : String
  currencies : List Currency
deriving DecidableEq, Repr

/-! ## Date-string parsing (chrono `NaiveDate::from_str`) -/

/-- Digit test on a character. -/
def isDigitCh (c : Char) : Prop := 48 ≤ c.toNat ∧ c.toNat ≤ 57

instance (c : Char) : Decidable (isDigitCh c) := by unfold isDigitCh; infer_instance

/-- Numeric value accumulator over digit characters. -/
def digitsValAux : List Char → Nat → Option Nat
  | [], acc => some acc
  | c :: cs, acc =>
    if isDigitCh c then digitsValAux cs (acc * 10 + (c.toNat - 48)) else none

/-- Numeric value of a digit list, most significant first; `none` if the
list is empty or contains a non-digit. -/
def digitsVal : List Char → Option Nat
  | [] => none
  | cs => digitsValAux cs 0

/-- Split a character list at `-` separators. -/
def splitDash : List Char → List (List Char)
  | [] => [[]]
  | c :: cs =>
    let rest := splitDash cs
    if c = '-' then [] :: rest
    else match rest with
      | [] => [[c]]
      | r :: rs => (c :: r) :: rs

/-- Parse an ISO-8601 `YYYY-MM-DD` date string (optionally negative
year), checking calendar validity — the behaviour of chrono's
`NaiveDate::from_str` on which `date_as_key` and `value_as_date` rely. -/
def parseDate (s : String) : Option CalDate :=
  let cs := s.data
  let (neg, body) := match cs with
    | '-' :: rest => (true, rest)
    | _ => (false, cs)
  match splitDash body with
  | [ys, ms, ds] => do
    let yv ← digitsVal ys
    let mv ← digitsVal ms
    let dv ← digitsVal ds
    let date : CalDate := ⟨if neg then -(yv : Int) else (yv : Int), (mv : Int), (dv : Int)⟩
    if validDate date then some date else none
  | _ => none

/-- `date_as_key`: parse the date string and encode it as the 8-byte
big-endian timestamp key (`db.rs`). -/
def date_as_key (s : String) : Except Error (List Nat) :=
  match parseDate s with
  | none => .error (.DateParseError ("could not parse " ++ s ++ " as NaiveDate"))
  | some d => .ok (encodeKey d)

/-- `Date::value_as_date`: parse the snapshot's date string
(`fetcher.rs`). -/
def value_as_date (e : DateEntry) : Except Error CalDate :=
  match parseDate e.value with
  | none => .error (.DateParseError e.value)
  | some d => .ok d

/-! ## The store (`sled::Db` as used through `Db`) -/

/-- A stored record: the pointer slot holds a serialized byte vector
(the encoded date key), a date slot holds a serialized snapshot. -/
inductive StoreVal where
  | bytes (b : List Nat)
  | snap (e : DateEntry)
deriving DecidableEq, Repr

/-- The key-value store, as an association list (later binding wins is
realised by `storePut` replacing in place). -/
abbrev Store := List (List Nat × StoreVal)

/-- Upsert of a key (sled `insert`): replaces the value of an existing
key, otherwise appends the binding. -/
def storePut (st : Store) (k : List Nat) (v : StoreVal) : Store :=
  match st with
  | [] => [(k, v)]
  | (k', v') :: rest =>
    if k' = k then (k, v) :: rest else (k', v') :: storePut rest k v

/-- Point lookup of a key (sled `get`). -/
def storeGet (st : Store) (k : List Nat) : Option StoreVal :=
  match st with
  | [] => none
  | (k', v') :: rest => if k' = k then some v' else storeGet rest k

/-- Observable store mutations, in the order they are issued; `openStore`
records the creation/opening of the store file (`Db::open`). -/
inductive DbEvent where
  | openStore
  | put (k : List Nat) (v : StoreVal)
  | flush
deriving DecidableEq, Repr

/-- `Db::get_current_rates`: read the pointer record, then the
pointed-to snapshot; missing pointer, missing target, or a record that
does not deserialize to the expected type is a database error. -/
def get_current_rates (st : Store) : Except Error DateEntry :=
  match storeGet st currentKey with
  | none => .error (.DatabaseError "could not find `current` key on the database")
  | some (.snap _) => .error (.DatabaseError "could not deserialize blob from database")
  | some (.bytes k) =>
    match storeGet st k with
    | none => .error (.DatabaseError "could not find `current` reference rates on the database")
    | some (.bytes _) => .error (.DatabaseError "could not deserialize blob from database")
    | some (.snap e) => .ok e

/-- `Db::get_day_rates`: encode the query string as a key and do a point
lookup; an absent date is `ok none`, not an error. -/
def get_day_rates (st : Store) (day : String) : Except Error (Option DateEntry) :=
  match date_as_key day with
  | .error e => .error e
  | .ok k =>
    match storeGet st k with
    | none => .ok none
    | some (.bytes _) => .error (.DatabaseError "could not deserialize blob from database")
    | some (.snap e) => .ok (some e)

/-- `collect::<Result<Vec<_>, Error>>`: map a fallible function over a
list, stopping at the first error. -/
def collectExcept {α β : Type} : List α → (α → Except Error β) → Except Error (List β)
  | [], _ => .ok []
  | x :: xs, f =>
    match f x with
    | .error e => .error e
    | .ok y =>
      match collectExcept xs f with
      | .error e => .error e
      | .ok ys => .ok (y :: ys)

/-- `Db::get_range_rates`: scan all records whose key lies
byte-lexicographically in `[encode start, encode end]` and deserialize
each as a snapshot (a pointer record in the window would fail
deserialization and abort the whole scan). -/
def get_range_rates (st : Store) (start_at end_at : CalDate) :
    Except Error (List DateEntry) :=
  let range_start := encodeKey start_at
  let range_end := encodeKey end_at
  collectExcept
    (st.filter (fun kv => decide (lexLe range_start kv.1) && decide (lexLe kv.1 range_end)))
    (fun kv =>
      match kv.2 with
      | .snap e => .ok e
      | .bytes _ => .error (.DatabaseError "could not deseiralize database key"))

/-! ## Bootstrap (`db.rs::bootstrap_new`) -/

/-- `date.currencies.push(Currency { name: "EUR", rate: 1.0 })`. -/
def injectEUR (e : DateEntry) : DateEntry :=
  { e with currencies := e.currencies ++ [⟨"EUR", 1⟩] }

/-- The per-snapshot write loop of `bootstrap_new`: for each fetched
entry, encode its date key, push the EUR self-rate, and `put`.  Returns
the events issued so far and either the resulting store or the error
that aborted the loop. -/
def bootstrapLoop : List DateEntry → Store → List DbEvent →
    List DbEvent × Except Error Store
  | [], st, ev => (ev, .ok st)
  | e :: rest, st, ev =>
    match date_as_key e.value with
    | .error err => (ev, .error err)
    | .ok day =>
      let e' := injectEUR e
      bootstrapLoop rest (storePut st day (.snap e')) (ev ++ [.put day (.snap e')])

/-- `bootstrap_new`: `fetched` is the outcome of `fetcher::fetch_hist`.
On a non-empty fetch the store is opened, the `current` pointer is
written (encoding the date of the *first* fetched entry), every fetched
snapshot is written, and the store is flushed. -/
def bootstrap_new (fetched : Except Error (List DateEntry)) :
    List DbEvent × Except Error Store :=
  match fetched with
  | .error _ =>
    ([], .error (.DatabaseError "could not fetch Historical reference rates from ECB"))
  | .ok dates =>
    match dates.head? with
    | none =>
      ([], .error (.DatabaseError "fetched Historical reference rates from ECB are empy"))
    | some current_date =>
      match date_as_key current_date.value with
      | .error err => ([.openStore], .error err)
      | .ok ck =>
        let st1 := storePut [] currentKey (.bytes ck)
        let ev1 := [DbEvent.openStore, .put currentKey (.bytes ck)]
        match bootstrapLoop dates st1 ev1 with
        | (ev, .error err) => (ev, .error err)
        | (ev, .ok st) => (ev ++ [.flush], .ok st)

/-! ## Reconciliation (`db.rs::update`) -/

/-- The three remote fetch granularities the tick can choose. -/
inductive Strategy where
  | histFull
  | last90
  | daily
deriving DecidableEq, Repr

/-- The fetch-strategy selection of `update`, by the gap
`current - db_current` in calendar days: the `match` guards
`d > Duration::days(90)`, `d < Duration::days(90) && d > Duration::days(1)`
and the catch-all `_`. -/
def selectStrategy (gap : Int) : Strategy :=
  if 90 < gap then .histFull
  else if gap < 90 ∧ 1 < gap then .last90
  else .daily

/-- The fetch performed for a given strategy: the full history, the
last-90-days window, or the single re-fetched daily snapshot wrapped in
a one-element sequence (`vec![fetcher::fetch_daily().await?]`). -/
def selectFetched (daily2 : Except Error DateEntry)
    (hist last90 : Except Error (List DateEntry)) (gap : Int) :
    Except Error (List DateEntry) :=
  match selectStrategy gap with
  | .histFull => hist
  | .last90 => last90
  | .daily =>
    match daily2 with
    | .error e => .error e
    | .ok d => .ok [d]

/-- The commit loop of `update`, over the fetched entries *in reverse
order* (`dates.iter_mut().rev()`): each entry strictly newer than
`dbCur` is EUR-injected, `put` under its date key, and the `current`
pointer is immediately re-written to that key. -/
def updateLoop (dbCur : CalDate) : List DateEntry → Store → List DbEvent →
    List DbEvent × Except Error Store
  | [], st, ev => (ev, .ok st)
  | e :: rest, st, ev =>
    match value_as_date e with
    | .error err => (ev, .error err)
    | .ok d =>
      if dateLt dbCur d then
        let day := encodeKey d
        let e' := injectEUR e
        let st' := storePut (storePut st day (.snap e')) currentKey (.bytes day)
        updateLoop dbCur rest st'
          (ev ++ [.put day (.snap e'), .put currentKey (.bytes day)])
      else updateLoop dbCur rest st ev

/-- `update`: one reconciliation tick.  `daily` is the first
`fetch_daily` result (the remote latest), `daily2`, `hist` and `last90`
are the outcomes the strategy branches would fetch; `st` is the store.
Returns the issued write events and the final store (or the error). -/
def update (daily daily2 : Except Error DateEntry)
    (hist last90 : Except Error (List DateEntry)) (st : Store) :
    List DbEvent × Except Error Store :=
  match daily with
  | .error e => ([], .error e)
  | .ok cEntry =>
    match value_as_date cEntry with
    | .error e => ([], .error e)
    | .ok current =>
      match get_current_rates st with
      | .error e => ([], .error e)
      | .ok dbEntry =>
        match value_as_date dbEntry with
        | .error e => ([], .error e)
        | .ok db_current =>
          if current = db_current then ([], .ok st)
          else if dateLt db_current current then
            let gap := dateDays current - dateDays db_current
            match selectFetched daily2 hist last90 gap with
            | .error e => ([], .error e)
            | .ok dates => updateLoop db_current dates.reverse st []
          else
            ([], .error (.DatabaseError
              "error, current database rates are younger than fetched from ECB"))

/-! ## Calendar arithmetic lemmas -/

/-- Day count contributed by whole shifted years before shifted year `s`. -/
def yearDays (s : Int) : Int :=
  s / 400 * 146097 + s % 400 * 365 + s % 400 / 4 - s % 400 / 100

/-- The March-based shifted year of a civil date. -/
def shY (y m : Int) : Int := if m ≤ 2 then y - 1 else y

/-- The March-based shifted month (0 = March … 11 = February). -/
def shM (y m : Int) : Int := if m ≤ 2 then m + 9 else m - 3

theorem dfc_repr (y m d : Int) :
    daysFromCivil y m d =
      yearDays (shY y m) + (153 * shM y m + 2) / 5 + d - 1 - 719468 := by
  unfold daysFromCivil yearDays shY shM
  split_ifs <;> ring

theorem yearDays_step (s : Int) :
    yearDays (s + 1) = yearDays s + 365 + (if isLeap (s + 1) then 1 else 0) := by
  unfold yearDays isLeap
  split_ifs <;> omega

theorem yearDays_ge (n : Nat) (s : Int) :
    yearDays s + 365 * n ≤ yearDays (s + n) := by
  induction n with
  | zero => simp
  | succ k ih =>
    have e : s + ((k : Int) + 1) = (s + k) + 1 := by ring
    have h := yearDays_step (s + k)
    have hL : (0 : Int) ≤ if isLeap (s + k + 1) then 1 else 0 := by split <;> omega
    push_cast
    rw [e]
    omega

theorem doy_le (y m d : Int) (hm : 1 ≤ m ∧ m ≤ 12) (hd : 1 ≤ d)
    (hdm : d ≤ daysInMonth y m) :
    (153 * shM y m + 2) / 5 + d - 1 ≤ 364 + (if isLeap (shY y m + 1) then 1 else 0) := by
  unfold daysInMonth isLeap shY shM at *
  split_ifs at * <;> omega

theorem doy_tile (y1 m1 d1 y2 m2 d2 : Int)
    (h1 : 1 ≤ m1 ∧ m1 ≤ 12 ∧ 1 ≤ d1 ∧ d1 ≤ daysInMonth y1 m1)
    (h2 : 1 ≤ m2 ∧ m2 ≤ 12 ∧ 1 ≤ d2)
    (hp : shM y1 m1 < shM y2 m2) :
    (153 * shM y1 m1 + 2) / 5 + d1 < (153 * shM y2 m2 + 2) / 5 + d2 := by
  obtain ⟨hm11, hm12, hd11, hd12⟩ := h1
  obtain ⟨hm21, hm22, hd21⟩ := h2
  have hb2 : 0 ≤ shM y2 m2 ∧ shM y2 m2 ≤ 11 := by unfold shM; split <;> omega
  interval_cases m1 <;> unfold daysInMonth shM at * <;> split_ifs at * <;> omega

theorem shifted_lt (a b : CalDate) (ha : validDate a) (hb : validDate b) (h : dateLt a b) :
    shY a.year a.month < shY b.year b.month ∨
    (shY a.year a.month = shY b.year b.month ∧
      (shM a.year a.month < shM b.year b.month ∨
       (shM a.year a.month = shM b.year b.month ∧ a.day < b.day))) := by
  unfold validDate dateLt shY shM at *
  split_ifs <;> omega

/-- The key-codec core fact: the epoch-day count is strictly monotone in
calendar order over all representable dates. -/
theorem dateDays_strictMono (a b : CalDate) (ha : validDate a) (hb : validDate b)
    (h : dateLt a b) : dateDays a < dateDays b := by
  unfold dateDays
  rw [dfc_repr a.year a.month a.day, dfc_repr b.year b.month b.day]
  obtain ⟨_, _, hma1, hma2, hda1, hda2⟩ := ha
  obtain ⟨_, _, hmb1, hmb2, hdb1, hdb2⟩ := hb
  rcases shifted_lt a b (by unfold validDate; tauto) (by unfold validDate; tauto) h with
    hs | ⟨hs, hp | ⟨hp, hd⟩⟩
  · have dbA := doy_le a.year a.month a.day ⟨hma1, hma2⟩ hda1 hda2
    have dbB : 0 ≤ (153 * shM b.year b.month + 2) / 5 + b.day - 1 := by
      have : 0 ≤ shM b.year b.month := by unfold shM; split <;> omega
      omega
    by_cases hone : shY b.year b.month = shY a.year a.month + 1
    · have step := yearDays_step (shY a.year a.month)
      rw [hone]
      omega
    · have e : shY a.year a.month + ((shY b.year b.month - shY a.year a.month).toNat : Int)
          = shY b.year b.month := by omega
      have hge := yearDays_ge (shY b.year b.month - shY a.year a.month).toNat
        (shY a.year a.month)
      rw [e] at hge
      have hL : (if isLeap (shY a.year a.month + 1) then (1 : Int) else 0) ≤ 1 := by
        split <;> omega
      omega
  · have := doy_tile a.year a.month a.day b.year b.month b.day
      ⟨hma1, hma2, hda1, hda2⟩ ⟨hmb1, hmb2, hdb1⟩ hp
    rw [← hs]
    omega
  · rw [← hs, ← hp]
    omega

/-- The epoch-day count of any representable date is small. -/
theorem dateDays_bound (d : CalDate) (h : validDate d) :
    -100000000 ≤ dateDays d ∧ dateDays d ≤ 100000000 := by
  obtain ⟨hy1, hy2, hm1, hm2, hd1, hd2⟩ := h
  have hd31 : d.day ≤ 31 := by
    unfold daysInMonth at hd2; split_ifs at hd2 <;> omega
  unfold dateDays daysFromCivil
  dsimp only
  split_ifs <;> omega

/-! ## Byte-encoding lemmas -/

theorem beBytes_length (w : Nat) : ∀ n, (beBytes w n).length = w := by
  induction w with
  | zero => intro n; rfl
  | succ k ih => intro n; simp [beBytes, ih]

theorem beBytes_lt (w : Nat) : ∀ n1 n2 : Nat, n1 < n2 → n2 < 256 ^ w →
    lexLt (beBytes w n1) (beBytes w n2) := by
  induction w with
  | zero => intro n1 n2 h hb; simp at hb; omega
  | succ k ih =>
    intro n1 n2 h hb
    simp only [beBytes]
    have hq : n1 / 256 ^ k ≤ n2 / 256 ^ k := Nat.div_le_div_right (le_of_lt h)
    rcases lt_or_eq_of_le hq with hlt | heq
    · exact Or.inl hlt
    · refine Or.inr ⟨heq, ih _ _ ?_ ?_⟩
      · have e1 := Nat.div_add_mod n1 (256 ^ k)
        have e2 := Nat.div_add_mod n2 (256 ^ k)
        rw [← e1, ← e2, heq] at h
        exact Nat.lt_of_add_lt_add_left h
      · exact Nat.mod_lt _ (by positivity)

theorem encodeKey_length (d : CalDate) : (encodeKey d).length = 8 :=
  beBytes_length 8 _

theorem dateTimestamp_bound (d : CalDate) (h : validDate d) :
    -8640000000000000 ≤ dateTimestamp d ∧ dateTimestamp d ≤ 8640000000000000 := by
  have := dateDays_bound d h
  unfold dateTimestamp
  omega

theorem dateTimestamp_strictMono (a b : CalDate) (ha : validDate a) (hb : validDate b)
    (h : dateLt a b) : dateTimestamp a < dateTimestamp b := by
  have := dateDays_strictMono a b ha hb h
  unfold dateTimestamp
  omega

theorem encodeKey_lt (a b : CalDate) (ha : validDate a) (hb : validDate b)
    (h : dateLt a b) (hepoch : 0 ≤ dateTimestamp a) :
    lexLt (encodeKey a) (encodeKey b) := by
  have hm := dateTimestamp_strictMono a b ha hb h
  have hba := dateTimestamp_bound a ha
  have hbb := dateTimestamp_bound b hb
  unfold encodeKey
  have h256 : (256 : Nat) ^ 8 = 18446744073709551616 := by norm_num
  apply beBytes_lt 8 _ _ ?_ ?_
  · omega
  · rw [h256]; omega

theorem beBytes8_cons (n : Nat) :
    beBytes 8 n = n / 72057594037927936 :: beBytes 7 (n % 72057594037927936) := by
  show beBytes (7 + 1) n = _
  simp only [beBytes]
  norm_num

theorem encodeKey_head0 (d : CalDate) (hv : validDate d) (h : 0 ≤ dateTimestamp d) :
    ∃ t, encodeKey d = 0 :: t := by
  have hb := dateTimestamp_bound d hv
  have hd : (dateTimestamp d % (2 ^ 64 : Int)).toNat / 72057594037927936 = 0 := by omega
  exact ⟨beBytes 7 ((dateTimestamp d % (2 ^ 64 : Int)).toNat % 72057594037927936),
    by unfold encodeKey; rw [beBytes8_cons, hd]⟩

theorem encodeKey_head255 (d : CalDate) (hv : validDate d) (h : dateTimestamp d < 0) :
    ∃ t, encodeKey d = 255 :: t := by
  have hb := dateTimestamp_bound d hv
  have hd : (dateTimestamp d % (2 ^ 64 : Int)).toNat / 72057594037927936 = 255 := by omega
  exact ⟨beBytes 7 ((dateTimestamp d % (2 ^ 64 : Int)).toNat % 72057594037927936),
    by unfold encodeKey; rw [beBytes8_cons, hd]⟩

/-! ## Specification helpers -/

/-- The store key a fetched entry is written under (defined when its
date string parses). -/
def keyOf (e : DateEntry) : List Nat :=
  match parseDate e.value with
  | some d => encodeKey d
  | none => []

/-- The currency codes of a snapshot. -/
def namesOf (e : DateEntry) : List String := e.currencies.map (fun c => c.name)

/-- A remote snapshot with pairwise-distinct codes not already
containing the reference currency. -/
def cleanEntry (e : DateEntry) : Prop :=
  (namesOf e).Nodup ∧ "EUR" ∉ namesOf e

instance (e : DateEntry) : Decidable (cleanEntry e) := by
  unfold cleanEntry
  infer_instance

/-- Every snapshot-put event carries the EUR self-rate. -/
def snapPutHasEUR : DbEvent → Prop
  | .put _ (.snap e) => Currency.mk "EUR" 1 ∈ e.currencies
  | _ => True

/-- Every snapshot-put event has pairwise-distinct currency codes. -/
def snapPutNodup : DbEvent → Prop
  | .put _ (.snap e) => (namesOf e).Nodup
  | _ => True

/-- The events `update` issues for one processed entry: nothing unless
the entry is strictly newer than the tick-start local date, otherwise a
snapshot put followed by a pointer put. -/
def commitEvts (dbCur : CalDate) (e : DateEntry) : List DbEvent :=
  match parseDate e.value with
  | none => []
  | some d =>
    if dateLt dbCur d then
      [.put (encodeKey d) (.snap (injectEUR e)), .put currentKey (.bytes (encodeKey d))]
    else []

/-- The keys of the snapshot-put events of a trace, in order. -/
def snapPutKeys (tr : List DbEvent) : List (List Nat) :=
  tr.filterMap (fun ev => match ev with
    | .put k (.snap _) => some k
    | _ => none)

/-- Strict ascending byte-lexicographic order of a key sequence. -/
def ascendingKeys : List (List Nat) → Prop
  | [] => True
  | [_] => True
  | a :: b :: rest => lexLt a b ∧ ascendingKeys (b :: rest)

instance : (l : List (List Nat)) → Decidable (ascendingKeys l)
  | [] => .isTrue trivial
  | [_] => .isTrue trivial
  | a :: b :: rest =>
    have : Decidable (ascendingKeys (b :: rest)) := instDecidableAscendingKeys (b :: rest)
    by unfold ascendingKeys; infer_instance

/-- A well-formed store: every record is the pointer record or a
snapshot stored under the encoding of a representable date. -/
def storeWf (st : Store) : Prop :=
  ∀ kv ∈ st, kv.1 = currentKey ∨
    ∃ d e, validDate d ∧ kv.1 = encodeKey d ∧ kv.2 = StoreVal.snap e

/-! ## Store lemmas -/

theorem storeGet_put_self (st : Store) (k : List Nat) (v : StoreVal) :
    storeGet (storePut st k v) k = some v := by
  induction st with
  | nil => simp [storePut, storeGet]
  | cons kv rest ih =>
    obtain ⟨k1, v1⟩ := kv
    by_cases h : k1 = k
    · simp [storePut, storeGet, h]
    · simp [storePut, storeGet, h, ih]

theorem storeGet_put_ne (st : Store) (k k' : List Nat) (v : StoreVal) (h : k' ≠ k) :
    storeGet (storePut st k' v) k = storeGet st k := by
  induction st with
  | nil => simp [storePut, storeGet, h]
  | cons kv rest ih =>
    obtain ⟨k1, v1⟩ := kv
    by_cases h1 : k1 = k'
    · subst h1
      simp [storePut, storeGet, h]
    · by_cases h2 : k1 = k
      · subst h2
        simp [storePut, storeGet, h1]
      · simp [storePut, storeGet, h1, h2, ih]

theorem encodeKey_ne_currentKey (d : CalDate) : encodeKey d ≠ currentKey := by
  intro h
  have hl := encodeKey_length d
  rw [h] at hl
  simp [currentKey] at hl

theorem keyOf_ne_currentKey (e : DateEntry) (h : (parseDate e.value).isSome) :
    keyOf e ≠ currentKey := by
  obtain ⟨d, hd⟩ := Option.isSome_iff_exists.mp h
  simp [keyOf, hd, encodeKey_ne_currentKey]



theorem dateLt_asymm (a b : CalDate) (h : dateLt a b) : ¬ dateLt b a := by
  unfold dateLt at *; omega

theorem dateLt_ne (a b : CalDate) (h : dateLt a b) : a ≠ b := by
  intro he; subst he; unfold dateLt at h; omega

theorem storeGet_foldl_puts (l : List DateEntry) (st : Store)
    (h : ∀ e ∈ l, keyOf e ≠ currentKey) :
    storeGet (l.foldl (fun s e => storePut s (keyOf e) (.snap (injectEUR e))) st) currentKey
      = storeGet st currentKey := by
  induction l generalizing st with
  | nil => rfl
  | cons e rest ih =>
    simp only [List.foldl_cons]
    rw [ih _ (fun x hx => h x (List.mem_cons_of_mem _ hx))]
    exact storeGet_put_ne st currentKey (keyOf e) _ (h e (List.mem_cons_self _ _))

theorem collectExcept_ok {α β : Type} (f : α → Except Error β) :
    ∀ l : List α, (∀ x ∈ l, ∃ y, f x = .ok y) → ∃ res, collectExcept l f = .ok res := by
  intro l
  induction l with
  | nil => intro _; exact ⟨[], rfl⟩
  | cons x xs ih =>
    intro h
    obtain ⟨y, hy⟩ := h x (List.mem_cons_self _ _)
    obtain ⟨res, hres⟩ := ih (fun z hz => h z (List.mem_cons_of_mem _ hz))
    exact ⟨y :: res, by simp only [collectExcept, hy, hres]⟩

theorem bootstrapLoop_spec :
    ∀ (l : List DateEntry) (st : Store) (ev : List DbEvent),
    (∀ e ∈ l, (parseDate e.value).isSome) →
    bootstrapLoop l st ev =
      (ev ++ l.map (fun e => .put (keyOf e) (.snap (injectEUR e))),
       .ok (l.foldl (fun s e => storePut s (keyOf e) (.snap (injectEUR e))) st)) := by
  intro l
  induction l with
  | nil => intro st ev _; simp [bootstrapLoop]
  | cons e rest ih =>
    intro st ev h
    obtain ⟨d, hd⟩ := Option.isSome_iff_exists.mp (h e (List.mem_cons_self _ _))
    simp only [bootstrapLoop, date_as_key, hd]
    rw [ih _ _ (fun x hx => h x (List.mem_cons_of_mem _ hx))]
    simp [keyOf, hd]

theorem updateLoop_spec (dbCur : CalDate) :
    ∀ (l : List DateEntry) (st : Store) (ev : List DbEvent),
    (∀ e ∈ l, (parseDate e.value).isSome) →
    (updateLoop dbCur l st ev).1 = ev ++ l.flatMap (commitEvts dbCur) ∧
    ∃ st', (updateLoop dbCur l st ev).2 = .ok st' := by
  intro l
  induction l with
  | nil => intro st ev _; exact ⟨by simp [updateLoop], st, rfl⟩
  | cons e rest ih =>
    intro st ev h
    obtain ⟨d, hd⟩ := Option.isSome_iff_exists.mp (h e (List.mem_cons_self _ _))
    have hrest := fun x hx => h x (List.mem_cons_of_mem _ hx)
    by_cases hgt : dateLt dbCur d
    · have := ih (storePut (storePut st (encodeKey d) (.snap (injectEUR e))) currentKey
        (.bytes (encodeKey d)))
        (ev ++ [.put (encodeKey d) (.snap (injectEUR e)), .put currentKey (.bytes (encodeKey d))])
        hrest
      simp only [updateLoop, value_as_date, hd, if_pos hgt]
      refine ⟨?_, this.2⟩
      rw [this.1]
      simp [commitEvts, hd, if_pos hgt]
    · have := ih st ev hrest
      simp only [updateLoop, value_as_date, hd, if_neg hgt]
      refine ⟨?_, this.2⟩
      rw [this.1]
      simp [commitEvts, hd, if_neg hgt]



theorem bootstrap_new_spec (e0 : DateEntry) (rest : List DateEntry) (d0 : CalDate)
    (h0 : parseDate e0.value = some d0)
    (hrest : ∀ e ∈ rest, (parseDate e.value).isSome) :
    bootstrap_new (.ok (e0 :: rest)) =
      ([DbEvent.openStore, .put currentKey (.bytes (encodeKey d0))] ++
        (e0 :: rest).map (fun e => .put (keyOf e) (.snap (injectEUR e))) ++ [.flush],
       .ok ((e0 :: rest).foldl (fun s e => storePut s (keyOf e) (.snap (injectEUR e)))
         (storePut [] currentKey (.bytes (encodeKey d0))))) := by
  have hall : ∀ e ∈ e0 :: rest, (parseDate e.value).isSome := by
    intro x hx
    rcases List.mem_cons.mp hx with rfl | hx2
    · simp [h0]
    · exact hrest x hx2
  simp only [bootstrap_new, List.head?, date_as_key, h0]
  rw [bootstrapLoop_spec (e0 :: rest) _ _ hall]

theorem bootstrapLoop_mem :
    ∀ (l : List DateEntry) (st : Store) (ev : List DbEvent) (ev' : DbEvent),
    ev' ∈ (bootstrapLoop l st ev).1 →
    ev' ∈ ev ∨ ∃ e, e ∈ l ∧ ∃ k, ev' = .put k (.snap (injectEUR e)) := by
  intro l
  induction l with
  | nil => intro st ev ev' h; exact Or.inl h
  | cons e rest ih =>
    intro st ev ev' h
    cases hk : date_as_key e.value with
    | error err =>
      simp only [bootstrapLoop, hk] at h
      exact Or.inl h
    | ok day =>
      simp only [bootstrapLoop, hk] at h
      rcases ih _ _ _ h with h1 | ⟨x, hx, k, rfl⟩
      · rcases List.mem_append.mp h1 with h2 | h2
        · exact Or.inl h2
        · right
          exact ⟨e, List.mem_cons_self _ _, day, by simpa using h2⟩
      · right
        exact ⟨x, List.mem_cons_of_mem _ hx, k, rfl⟩



theorem updateLoop_mem (dbCur : CalDate) :
    ∀ (l : List DateEntry) (st : Store) (ev : List DbEvent) (ev' : DbEvent),
    ev' ∈ (updateLoop dbCur l st ev).1 →
    ev' ∈ ev ∨ (∃ e, e ∈ l ∧ ∃ k, ev' = .put k (.snap (injectEUR e))) ∨
      (∃ k, ev' = .put currentKey (.bytes k)) := by
  intro l
  induction l with
  | nil => intro st ev ev' h; exact Or.inl h
  | cons e rest ih =>
    intro st ev ev' h
    cases hk : value_as_date e with
    | error err =>
      simp only [updateLoop, hk] at h
      exact Or.inl h
    | ok d =>
      simp only [updateLoop, hk] at h
      by_cases hgt : dateLt dbCur d
      · rw [if_pos hgt] at h
        rcases ih _ _ _ h with h1 | h1 | h1
        · rcases List.mem_append.mp h1 with h2 | h2
          · exact Or.inl h2
          · rcases List.mem_cons.mp h2 with rfl | h3
            · exact Or.inr (Or.inl ⟨e, List.mem_cons_self _ _, _, rfl⟩)
            · have he : ev' = .put currentKey (.bytes (encodeKey d)) := by simpa using h3
              exact Or.inr (Or.inr ⟨_, he⟩)
        · obtain ⟨x, hx, k, rfl⟩ := h1
          exact Or.inr (Or.inl ⟨x, List.mem_cons_of_mem _ hx, k, rfl⟩)
        · exact Or.inr (Or.inr h1)
      · rw [if_neg hgt] at h
        rcases ih _ _ _ h with h1 | h1 | h1
        · exact Or.inl h1
        · obtain ⟨x, hx, k, rfl⟩ := h1
          exact Or.inr (Or.inl ⟨x, List.mem_cons_of_mem _ hx, k, rfl⟩)
        · exact Or.inr (Or.inr h1)

theorem update_trace_cases (daily daily2 : Except Error DateEntry)
    (hist last90 : Except Error (List DateEntry)) (st : Store) :
    (update daily daily2 hist last90 st).1 = [] ∨
    ∃ dbCur dates, (hist = .ok dates ∨ last90 = .ok dates ∨
        (∃ d2, daily2 = .ok d2 ∧ dates = [d2])) ∧
      (update daily daily2 hist last90 st).1 = (updateLoop dbCur dates.reverse st []).1 := by
  unfold update
  cases daily with
  | error e => exact Or.inl rfl
  | ok cE =>
    cases hc : value_as_date cE with
    | error e => simp only [hc]; exact Or.inl trivial
    | ok current =>
      simp only [hc]
      cases hg : get_current_rates st with
      | error e => exact Or.inl rfl
      | ok dbE =>
        cases hdb : value_as_date dbE with
        | error e => simp only [hdb]; exact Or.inl trivial
        | ok db_current =>
          simp only [hdb]
          by_cases heq : current = db_current
          · rw [if_pos heq]; exact Or.inl rfl
          · rw [if_neg heq]
            by_cases hlt : dateLt db_current current
            · rw [if_pos hlt]
              cases hf : selectFetched daily2 hist last90
                  (dateDays current - dateDays db_current) with
              | error e => simp only [hf]; exact Or.inl trivial
              | ok dates =>
                simp only [hf]
                right
                refine ⟨db_current, dates, ?_, rfl⟩
                unfold selectFetched at hf
                cases hs : selectStrategy (dateDays current - dateDays db_current) <;>
                  rw [hs] at hf
                · exact Or.inl hf
                · exact Or.inr (Or.inl hf)
                · cases daily2 with
                  | error e2 => cases hf
                  | ok d2 =>
                    refine Or.inr (Or.inr ⟨d2, rfl, ?_⟩)
                    cases hf
                    rfl
            · rw [if_neg hlt]; exact Or.inl rfl

theorem dateLt_irrefl (a : CalDate) : ¬ dateLt a a := by
  unfold dateLt; omega

/-- The pointer record of the final store of a run, if the run succeeded. -/
def finalPtr (r : List DbEvent × Except Error Store) : Option StoreVal :=
  match r.2 with
  | .ok st => storeGet st currentKey
  | .error _ => none

/-- The event is a write of the `current` pointer slot. -/
def isPtrPut : DbEvent → Prop
  | .put k _ => k = currentKey
  | _ => False

instance : (ev : DbEvent) → Decidable (isPtrPut ev)
  | .openStore => .isFalse (fun h => h)
  | .flush => .isFalse (fun h => h)
  | .put k _ => inferInstanceAs (Decidable (k = currentKey))

/-- The event is a write of a snapshot record. -/
def isSnapPut : DbEvent → Prop
  | .put _ (.snap _) => True
  | _ => False

instance : (ev : DbEvent) → Decidable (isSnapPut ev)
  | .openStore => .isFalse (fun h => h)
  | .flush => .isFalse (fun h => h)
  | .put _ (.bytes _) => .isFalse (fun h => h)
  | .put _ (.snap _) => .isTrue trivial

/-- A one-snapshot store whose current pointer is 2020-01-01. -/
def st2020 : Store :=
  [(currentKey, .bytes (encodeKey ⟨2020, 1, 1⟩)),
   (encodeKey ⟨2020, 1, 1⟩, .snap ⟨"2020-01-01", []⟩)]

theorem injectEUR_nodup (e : DateEntry) (h : cleanEntry e) :
    (namesOf (injectEUR e)).Nodup := by
  obtain ⟨h1, h2⟩ := h
  have he : namesOf (injectEUR e) = namesOf e ++ ["EUR"] := by
    simp [namesOf, injectEUR]
  rw [he, List.nodup_append]
  refine ⟨h1, List.nodup_singleton _, ?_⟩
  intro x hx hx2
  simp at hx2
  subst hx2
  exact h2 hx

/-- Every event a bootstrap run can issue: opening the store, the flush,
a pointer write, or an EUR-injected snapshot write of a fetched entry. -/
theorem bootstrap_mem (fetched : Except Error (List DateEntry)) (ev' : DbEvent)
    (h : ev' ∈ (bootstrap_new fetched).1) :
    ev' = .openStore ∨ ev' = .flush ∨ (∃ k, ev' = .put currentKey (.bytes k)) ∨
    (∃ l e, fetched = .ok l ∧ e ∈ l ∧ ∃ k, ev' = .put k (.snap (injectEUR e))) := by
  cases fetched with
  | error err => simp [bootstrap_new] at h
  | ok dates =>
    cases dates with
    | nil => simp [bootstrap_new] at h
    | cons e0 rest =>
      simp only [bootstrap_new, List.head?] at h
      cases hk : date_as_key e0.value with
      | error err =>
        rw [hk] at h
        simp at h
        subst h
        exact Or.inl rfl
      | ok ck =>
        rw [hk] at h
        dsimp only at h
        rcases hbl : bootstrapLoop (e0 :: rest)
            (storePut [] currentKey (.bytes ck))
            [DbEvent.openStore, .put currentKey (.bytes ck)] with ⟨evl, res⟩
        rw [hbl] at h
        have key : ∀ ev₁ ∈ evl,
            ev₁ = DbEvent.openStore ∨ ev₁ = DbEvent.flush ∨
            (∃ k, ev₁ = .put currentKey (.bytes k)) ∨
            (∃ l e, (Except.ok (e0 :: rest) : Except Error (List DateEntry)) = .ok l ∧
              e ∈ l ∧ ∃ k, ev₁ = .put k (.snap (injectEUR e))) := by
          intro ev₁ h₁
          have h₁' : ev₁ ∈ (bootstrapLoop (e0 :: rest)
              (storePut [] currentKey (.bytes ck))
              [DbEvent.openStore, .put currentKey (.bytes ck)]).1 := by
            rw [hbl]; exact h₁
          rcases bootstrapLoop_mem _ _ _ _ h₁' with h2 | ⟨x, hx, k, rfl⟩
          · rcases List.mem_cons.mp h2 with rfl | h3
            · exact Or.inl rfl
            · simp at h3
              subst h3
              exact Or.inr (Or.inr (Or.inl ⟨ck, rfl⟩))
          · exact Or.inr (Or.inr (Or.inr ⟨e0 :: rest, x, rfl, hx, k, rfl⟩))
        cases res with
        | error e => exact key ev' (by simpa using h)
        | ok st =>
          simp only at h
          rcases List.mem_append.mp h with h2 | h2
          · exact key ev' h2
          · simp at h2
            subst h2
            exact Or.inr (Or.inl rfl)

/-- Every event a reconciliation tick can issue: a pointer write or an
EUR-injected snapshot write of an entry of the selected fetch. -/
theorem update_mem (daily daily2 : Except Error DateEntry)
    (hist last90 : Except Error (List DateEntry)) (st : Store) (ev' : DbEvent)
    (h : ev' ∈ (update daily daily2 hist last90 st).1) :
    (∃ k, ev' = .put currentKey (.bytes k)) ∨
    (∃ l e, (hist = .ok l ∨ last90 = .ok l ∨ (∃ d2, daily2 = .ok d2 ∧ l = [d2])) ∧
      e ∈ l ∧ ∃ k, ev' = .put k (.snap (injectEUR e))) := by
  rcases update_trace_cases daily daily2 hist last90 st with h0 | ⟨dbCur, dates, hsrc, htr⟩
  · rw [h0] at h
    simp at h
  · rw [htr] at h
    rcases updateLoop_mem dbCur _ _ _ _ h with h1 | ⟨x, hx, k, rfl⟩ | h1
    · simp at h1
    · exact Or.inr ⟨dates, x, hsrc, List.mem_reverse.mp hx, k, rfl⟩
    · exact Or.inl h1

theorem lexLt_cons (a b : Nat) (as bs : List Nat) :
    lexLt (a :: as) (b :: bs) ↔ a < b ∨ (a = b ∧ lexLt as bs) := Iff.rfl

/-- The sentinel pointer key never lies inside the byte window spanned
by two encoded dates `s ≤ e`. -/
theorem sentinel_not_in_window (s e : CalDate) (hs : validDate s) (he : validDate e)
    (hle : dateLe s e) :
    ¬ (lexLe (encodeKey s) currentKey ∧ lexLe currentKey (encodeKey e)) := by
  rintro ⟨h1, h2⟩
  by_cases hte : 0 ≤ dateTimestamp e
  · obtain ⟨t, ht⟩ := encodeKey_head0 e he hte
    rw [ht] at h2
    rcases h2 with h2 | h2
    · rw [show currentKey = 99 :: [117, 114, 114, 101, 110, 116] from rfl, lexLt_cons] at h2
      omega
    · rw [show currentKey = 99 :: [117, 114, 114, 101, 110, 116] from rfl] at h2
      simp at h2
  · have hts : dateTimestamp s < 0 := by
      rcases hle with hlt | rfl
      · have hm := dateTimestamp_strictMono s e hs he hlt
        omega
      · omega
    obtain ⟨t, ht⟩ := encodeKey_head255 s hs hts
    rw [ht] at h1
    rcases h1 with h1 | h1
    · rw [show currentKey = 99 :: [117, 114, 114, 101, 110, 116] from rfl, lexLt_cons] at h1
      omega
    · rw [show currentKey = 99 :: [117, 114, 114, 101, 110, 116] from rfl] at h1
      simp at h1

/-! ## Claim theorems -/

/-- The full remote history the spec's remote contract describes:
oldest-first, here two consecutive dates. -/
def fetchedOldestFirst : Except Error (List DateEntry) :=
  .ok [⟨"2020-01-01", []⟩, ⟨"2020-01-02", []⟩]

/-- C1 (counterexample): on a non-empty fetched full history, bootstrap
does not write the pointer after all snapshot writes, and (for an
oldest-first sequence) the final pointer does not name the maximum date
of the sequence. -/
theorem C1_counterexample :
    ¬ ((∀ i j : Fin (bootstrap_new fetchedOldestFirst).1.length,
          isPtrPut ((bootstrap_new fetchedOldestFirst).1.get i) →
          isSnapPut ((bootstrap_new fetchedOldestFirst).1.get j) → (j : Nat) < (i : Nat)) ∧
       finalPtr (bootstrap_new fetchedOldestFirst) =
         some (.bytes (encodeKey ⟨2020, 1, 2⟩))) := by decide

/-- C1 (amended): after a successful non-empty full-history fetch,
bootstrap opens the store, writes the current pointer first — set to the
encoded date of the first fetched entry — then writes every fetched
snapshot (EUR-injected), then flushes; at the end the pointer holds the
first entry's key. -/
theorem C1_theorem (e0 : DateEntry) (rest : List DateEntry) (d0 : CalDate)
    (h0 : parseDate e0.value = some d0)
    (hrest : ∀ e ∈ rest, (parseDate e.value).isSome) :
    (bootstrap_new (.ok (e0 :: rest))).1 =
      [DbEvent.openStore, .put currentKey (.bytes (encodeKey d0))] ++
        (e0 :: rest).map (fun e => .put (keyOf e) (.snap (injectEUR e))) ++ [.flush] ∧
    finalPtr (bootstrap_new (.ok (e0 :: rest))) = some (.bytes (encodeKey d0)) := by
  have hker : ∀ e ∈ e0 :: rest, keyOf e ≠ currentKey := by
    intro e he
    apply keyOf_ne_currentKey
    rcases List.mem_cons.mp he with rfl | h2
    · simp [h0]
    · exact hrest e h2
  rw [bootstrap_new_spec e0 rest d0 h0 hrest]
  refine ⟨rfl, ?_⟩
  unfold finalPtr
  simp only
  rw [storeGet_foldl_puts _ _ hker, storeGet_put_self]

/-- C1 (witness): a concrete two-snapshot bootstrap run. -/
theorem C1_witness :
    (parseDate ("2020-01-02") = some ⟨2020, 1, 2⟩) ∧
    ((bootstrap_new (.ok [⟨"2020-01-02", []⟩, ⟨"2020-01-01", []⟩])).1 =
      [DbEvent.openStore, .put currentKey (.bytes (encodeKey ⟨2020, 1, 2⟩))] ++
        [DateEntry.mk "2020-01-02" [], DateEntry.mk "2020-01-01" []].map
          (fun e => .put (keyOf e) (.snap (injectEUR e))) ++ [.flush] ∧
     finalPtr (bootstrap_new (.ok [⟨"2020-01-02", []⟩, ⟨"2020-01-01", []⟩])) =
       some (.bytes (encodeKey ⟨2020, 1, 2⟩))) :=
  ⟨by decide, C1_theorem ⟨"2020-01-02", []⟩ [⟨"2020-01-01", []⟩] ⟨2020, 1, 2⟩
    (by decide) (by decide)⟩

/-- C2 (code evaluated at the failing input): the tick's fetch-strategy
selection sends a gap of exactly 90 days to the single-latest-day
branch, not the last-90-days branch; the surrounding boundary values
follow the claim. -/
theorem C2_theorem :
    selectStrategy 91 = Strategy.histFull ∧ selectStrategy 90 = Strategy.daily ∧
    selectStrategy 89 = Strategy.last90 ∧ selectStrategy 2 = Strategy.last90 ∧
    selectStrategy 1 = Strategy.daily := by decide

/-- C3 (counterexample): the key encoding is not monotone over all valid
dates — a pre-epoch date has a negative timestamp whose two's-complement
big-endian bytes start with 255 and compare above every post-epoch key. -/
theorem C3_counterexample :
    validDate ⟨1969, 12, 31⟩ ∧ validDate ⟨1970, 1, 1⟩ ∧
    dateLt ⟨1969, 12, 31⟩ ⟨1970, 1, 1⟩ ∧
    ¬ lexLt (encodeKey ⟨1969, 12, 31⟩) (encodeKey ⟨1970, 1, 1⟩) := by decide

/-- C3 (amended): for valid dates on or after 1970-01-01, the date-key
encoding is strictly monotone under byte-lexicographic comparison. -/
theorem C3_theorem (a b : CalDate) (ha : validDate a) (hb : validDate b)
    (hepoch : dateLe ⟨1970, 1, 1⟩ a) (h : dateLt a b) :
    lexLt (encodeKey a) (encodeKey b) := by
  apply encodeKey_lt a b ha hb h
  rcases hepoch with hlt | heq
  · have hm := dateTimestamp_strictMono ⟨1970, 1, 1⟩ a (by decide) ha hlt
    have h0 : dateTimestamp ⟨1970, 1, 1⟩ = 0 := by decide
    omega
  · rw [← heq]
    decide

/-- C3 (witness): two concrete post-epoch dates. -/
theorem C3_witness :
    validDate ⟨2020, 1, 1⟩ ∧ validDate ⟨2020, 1, 2⟩ ∧
    dateLe ⟨1970, 1, 1⟩ ⟨2020, 1, 1⟩ ∧ dateLt ⟨2020, 1, 1⟩ ⟨2020, 1, 2⟩ ∧
    lexLt (encodeKey ⟨2020, 1, 1⟩) (encodeKey ⟨2020, 1, 2⟩) :=
  ⟨by decide, by decide, by decide, by decide,
    C3_theorem _ _ (by decide) (by decide) (by decide) (by decide)⟩



/-- C4 (counterexample): with the fetched window supplied oldest-first
(as the claim states), the tick's snapshot commits happen in descending
date order, not ascending. -/
theorem C4_counterexample :
    ascendingKeys ([DateEntry.mk "2020-01-02" [], DateEntry.mk "2020-01-03" []].map keyOf) ∧
    ¬ ascendingKeys (snapPutKeys
      (update (.ok ⟨"2020-01-03", []⟩) (.error (.FetcherError ("unusedA")))
        (.error (.FetcherError ("unusedB")))
        (.ok [⟨"2020-01-02", []⟩, ⟨"2020-01-03", []⟩]) st2020).1) := by decide

/-- C4 (amended): in a tick with remote newer than local, the fetched
sequence is processed in reverse of the supplied order, and an entry is
committed (EUR-injected snapshot put, then pointer put to its date) if
and only if its date is strictly newer than the local current date read
at the start of the tick. -/
theorem C4_theorem (daily2 : Except Error DateEntry)
    (hist last90 : Except Error (List DateEntry)) (st : Store)
    (cE dbE : DateEntry) (cur dbCur : CalDate) (l : List DateEntry)
    (h2 : parseDate cE.value = some cur)
    (h3 : get_current_rates st = .ok dbE)
    (h4 : parseDate dbE.value = some dbCur)
    (h5 : dateLt dbCur cur)
    (h6 : selectFetched daily2 hist last90 (dateDays cur - dateDays dbCur) = .ok l)
    (h7 : ∀ e ∈ l, (parseDate e.value).isSome) :
    (update (.ok cE) daily2 hist last90 st).1 =
      l.reverse.flatMap (commitEvts dbCur) := by
  have hne : cur ≠ dbCur := by
    intro he
    rw [he] at h5
    exact dateLt_irrefl dbCur h5
  have h7' : ∀ e ∈ l.reverse, (parseDate e.value).isSome := by
    intro e he
    exact h7 e (List.mem_reverse.mp he)
  have hspec := updateLoop_spec dbCur l.reverse st [] h7'
  simp only [update, value_as_date, h2, h3, h4, if_neg hne, if_pos h5, h6]
  rw [hspec.1]
  simp

/-- C4 (witness): a concrete two-entry last-90 window over `st2020`. -/
theorem C4_witness :
    (parseDate ("2020-01-03") = some ⟨2020, 1, 3⟩) ∧
    (get_current_rates st2020 = .ok ⟨"2020-01-01", []⟩) ∧
    (parseDate ("2020-01-01") = some ⟨2020, 1, 1⟩) ∧
    dateLt ⟨2020, 1, 1⟩ ⟨2020, 1, 3⟩ ∧
    (selectFetched (.error (.FetcherError ("unusedA"))) (.error (.FetcherError ("unusedB")))
        (.ok [⟨"2020-01-02", []⟩, ⟨"2020-01-03", []⟩])
        (dateDays ⟨2020, 1, 3⟩ - dateDays ⟨2020, 1, 1⟩) =
      .ok [⟨"2020-01-02", []⟩, ⟨"2020-01-03", []⟩]) ∧
    ((update (.ok ⟨"2020-01-03", []⟩) (.error (.FetcherError ("unusedA")))
        (.error (.FetcherError ("unusedB")))
        (.ok [⟨"2020-01-02", []⟩, ⟨"2020-01-03", []⟩]) st2020).1 =
      [DateEntry.mk "2020-01-02" [], DateEntry.mk "2020-01-03" []].reverse.flatMap
        (commitEvts ⟨2020, 1, 1⟩)) :=
  ⟨by decide, by decide, by decide, by decide, by decide,
    C4_theorem (.error (.FetcherError ("unusedA"))) (.error (.FetcherError ("unusedB")))
      (.ok [⟨"2020-01-02", []⟩, ⟨"2020-01-03", []⟩]) st2020
      ⟨"2020-01-03", []⟩ ⟨"2020-01-01", []⟩ ⟨2020, 1, 3⟩ ⟨2020, 1, 1⟩
      [⟨"2020-01-02", []⟩, ⟨"2020-01-03", []⟩]
      (by decide) (by decide) (by decide) (by decide) (by decide) (by decide)⟩

/-- C5: if the remote latest date is strictly older than the local
current date, the tick returns the regression error and issues no write
at all. -/
theorem C5_theorem (daily2 : Except Error DateEntry)
    (hist last90 : Except Error (List DateEntry)) (st : Store)
    (cE dbE : DateEntry) (cur dbCur : CalDate)
    (h2 : parseDate cE.value = some cur)
    (h3 : get_current_rates st = .ok dbE)
    (h4 : parseDate dbE.value = some dbCur)
    (h5 : dateLt cur dbCur) :
    update (.ok cE) daily2 hist last90 st =
      ([], .error (.DatabaseError
        ("error, current database rates are younger than fetched from ECB"))) := by
  have hne : cur ≠ dbCur := dateLt_ne _ _ h5
  have hnlt : ¬ dateLt dbCur cur := dateLt_asymm _ _ h5
  simp only [update, value_as_date, h2, h3, h4, if_neg hne, if_neg hnlt]

/-- C5 (witness): a remote date one day behind `st2020`'s pointer. -/
theorem C5_witness :
    (parseDate ("2019-12-31") = some ⟨2019, 12, 31⟩) ∧
    (get_current_rates st2020 = .ok ⟨"2020-01-01", []⟩) ∧
    (parseDate ("2020-01-01") = some ⟨2020, 1, 1⟩) ∧
    dateLt ⟨2019, 12, 31⟩ ⟨2020, 1, 1⟩ ∧
    update (.ok ⟨"2019-12-31", []⟩) (.error (.FetcherError ("unusedC")))
        (.error (.FetcherError ("unusedD"))) (.error (.FetcherError ("unusedE"))) st2020 =
      ([], .error (.DatabaseError
        ("error, current database rates are younger than fetched from ECB"))) :=
  ⟨by decide, by decide, by decide, by decide,
    C5_theorem (.error (.FetcherError ("unusedC"))) (.error (.FetcherError ("unusedD")))
      (.error (.FetcherError ("unusedE"))) st2020
      ⟨"2019-12-31", []⟩ ⟨"2020-01-01", []⟩ ⟨2019, 12, 31⟩ ⟨2020, 1, 1⟩
      (by decide) (by decide) (by decide) (by decide)⟩

/-- C6: a failed or empty full-history fetch makes bootstrap return the
fetch-unavailable error without opening a store or issuing any write. -/
theorem C6_theorem :
    (∀ err : Error, bootstrap_new (.error err) =
      ([], .error (.DatabaseError ("could not fetch Historical reference rates from ECB")))) ∧
    bootstrap_new (.ok []) =
      ([], .error (.DatabaseError ("fetched Historical reference rates from ECB are empy"))) :=
  ⟨fun _ => rfl, rfl⟩



/-- C7: every snapshot committed by bootstrap or by a reconciliation
tick carries the reference currency EUR with rate exactly 1. -/
theorem C7_theorem :
    (∀ fetched, ∀ ev ∈ (bootstrap_new fetched).1, snapPutHasEUR ev) ∧
    (∀ daily daily2 hist last90 st,
      ∀ ev ∈ (update daily daily2 hist last90 st).1, snapPutHasEUR ev) := by
  constructor
  · intro fetched ev h
    rcases bootstrap_mem fetched ev h with rfl | rfl | ⟨k, rfl⟩ | ⟨l, e, _, _, k, rfl⟩
    · trivial
    · trivial
    · trivial
    · show Currency.mk "EUR" 1 ∈ (injectEUR e).currencies
      simp [injectEUR]
  · intro daily daily2 hist last90 st ev h
    rcases update_mem daily daily2 hist last90 st ev h with ⟨k, rfl⟩ | ⟨l, e, _, _, k, rfl⟩
    · trivial
    · show Currency.mk "EUR" 1 ∈ (injectEUR e).currencies
      simp [injectEUR]

/-- C7 (witness): the snapshot committed for a concrete EUR-free
payload carries the injected self-rate. -/
theorem C7_witness :
    DbEvent.put (keyOf ⟨"2020-01-01", []⟩) (.snap (injectEUR ⟨"2020-01-01", []⟩))
      ∈ (bootstrap_new (.ok [⟨"2020-01-01", []⟩])).1 ∧
    snapPutHasEUR
      (DbEvent.put (keyOf ⟨"2020-01-01", []⟩) (.snap (injectEUR ⟨"2020-01-01", []⟩))) :=
  ⟨by decide, C7_theorem.1 (.ok [⟨"2020-01-01", []⟩]) _ (by decide)⟩

/-- C8 (counterexample): a remote payload that already contains EUR
yields a committed snapshot with two EUR entries — currency codes of a
committed snapshot are not unique for arbitrary payloads. -/
theorem C8_counterexample :
    DbEvent.put (keyOf ⟨"2020-01-01", [⟨"EUR", 1⟩]⟩)
        (.snap (injectEUR ⟨"2020-01-01", [⟨"EUR", 1⟩]⟩))
      ∈ (bootstrap_new (.ok [⟨"2020-01-01", [⟨"EUR", 1⟩]⟩])).1 ∧
    ¬ (namesOf (injectEUR ⟨"2020-01-01", [⟨"EUR", 1⟩]⟩)).Nodup := by decide

/-- C8 (amended): committed snapshots have pairwise-distinct currency
codes provided every fetched payload entry has distinct codes and does
not already contain EUR. -/
theorem C8_theorem :
    (∀ l, (∀ e ∈ l, cleanEntry e) →
      ∀ ev ∈ (bootstrap_new (.ok l)).1, snapPutNodup ev) ∧
    (∀ daily daily2 hist last90 st,
      (∀ l, hist = .ok l → ∀ e ∈ l, cleanEntry e) →
      (∀ l, last90 = .ok l → ∀ e ∈ l, cleanEntry e) →
      (∀ d2, daily2 = .ok d2 → cleanEntry d2) →
      ∀ ev ∈ (update daily daily2 hist last90 st).1, snapPutNodup ev) := by
  constructor
  · intro l hcl ev h
    rcases bootstrap_mem _ _ h with rfl | rfl | ⟨k, rfl⟩ | ⟨l', e, heq, hmem, k, rfl⟩
    · trivial
    · trivial
    · trivial
    · cases heq
      show (namesOf (injectEUR e)).Nodup
      exact injectEUR_nodup e (hcl e hmem)
  · intro daily daily2 hist last90 st hh hl hd ev h
    rcases update_mem _ _ _ _ _ _ h with ⟨k, rfl⟩ | ⟨l, e, hsrc, hmem, k, rfl⟩
    · trivial
    · show (namesOf (injectEUR e)).Nodup
      apply injectEUR_nodup
      rcases hsrc with h1 | h1 | ⟨d2, hd2, rfl⟩
      · exact hh l h1 e hmem
      · exact hl l h1 e hmem
      · have he : e = d2 := by simpa using hmem
        subst he
        exact hd _ hd2

/-- C8 (witness): a clean concrete payload commits with distinct codes. -/
theorem C8_witness :
    (∀ e ∈ [DateEntry.mk "2020-01-01" [⟨"USD", 2⟩]], cleanEntry e) ∧
    DbEvent.put (keyOf ⟨"2020-01-01", [⟨"USD", 2⟩]⟩)
        (.snap (injectEUR ⟨"2020-01-01", [⟨"USD", 2⟩]⟩))
      ∈ (bootstrap_new (.ok [⟨"2020-01-01", [⟨"USD", 2⟩]⟩])).1 ∧
    snapPutNodup (DbEvent.put (keyOf ⟨"2020-01-01", [⟨"USD", 2⟩]⟩)
        (.snap (injectEUR ⟨"2020-01-01", [⟨"USD", 2⟩]⟩))) :=
  ⟨by decide, by decide,
    C8_theorem.1 [⟨"2020-01-01", [⟨"USD", 2⟩]⟩] (by decide) _ (by decide)⟩

/-- C9: the sentinel pointer key never equals an encoded date key, never
lies in the byte window of any date range with `start ≤ end`, and on a
well-formed store a range query never fails on (or returns) the pointer
record. -/
theorem C9_theorem :
    (∀ d : CalDate, validDate d → encodeKey d ≠ currentKey) ∧
    (∀ s e : CalDate, validDate s → validDate e → dateLe s e →
      ¬ (lexLe (encodeKey s) currentKey ∧ lexLe currentKey (encodeKey e))) ∧
    (∀ (st : Store) (s e : CalDate), storeWf st → validDate s → validDate e →
      dateLe s e → ∃ res, get_range_rates st s e = .ok res) := by
  refine ⟨fun d _ => encodeKey_ne_currentKey d, sentinel_not_in_window, ?_⟩
  intro st s e hwf hs he hle
  unfold get_range_rates
  apply collectExcept_ok
  intro kv hkv
  have hkv' := List.mem_filter.mp hkv
  rcases hwf kv hkv'.1 with hc | ⟨d, e', hv, hk, hval⟩
  · exfalso
    have hb := hkv'.2
    rw [hc] at hb
    simp only [Bool.and_eq_true, decide_eq_true_eq] at hb
    exact sentinel_not_in_window s e hs he hle ⟨hb.1, hb.2⟩
  · rw [hval]
    exact ⟨e', rfl⟩

/-- C9 (witness): a concrete range query over `st2020`. -/
theorem C9_witness :
    validDate ⟨1999, 1, 4⟩ ∧ validDate ⟨2020, 1, 1⟩ ∧ storeWf st2020 ∧
    dateLe ⟨1999, 1, 4⟩ ⟨2020, 1, 1⟩ ∧
    encodeKey ⟨1999, 1, 4⟩ ≠ currentKey ∧
    (∃ res, get_range_rates st2020 ⟨1999, 1, 4⟩ ⟨2020, 1, 1⟩ = .ok res) := by
  have hwf : storeWf st2020 := by
    intro kv hkv
    rcases List.mem_cons.mp hkv with rfl | hkv2
    · exact Or.inl rfl
    · rcases List.mem_cons.mp hkv2 with rfl | h3
      · exact Or.inr ⟨⟨2020, 1, 1⟩, ⟨"2020-01-01", []⟩, by decide, rfl, rfl⟩
      · exact absurd h3 (List.not_mem_nil _)
  exact ⟨by decide, by decide, hwf, by decide, C9_theorem.1 _ (by decide),
    C9_theorem.2.2 st2020 ⟨1999, 1, 4⟩ ⟨2020, 1, 1⟩ hwf (by decide) (by decide) (by decide)⟩

/-- C10: a query string that does not parse as a calendar date makes the
single-day lookup fail with a date-parse error, and the not-found value
is returned only for a parsed date with no snapshot in the store. -/
theorem C10_theorem :
    (∀ (st : Store) (s : String), parseDate s = none →
      get_day_rates st s =
        .error (.DateParseError ("could not parse " ++ s ++ " as NaiveDate"))) ∧
    (∀ (st : Store) (s : String), get_day_rates st s = .ok none →
      ∃ d, parseDate s = some d ∧ storeGet st (encodeKey d) = none) := by
  constructor
  · intro st s h
    simp [get_day_rates, date_as_key, h]
  · intro st s h
    unfold get_day_rates date_as_key at h
    cases hp : parseDate s with
    | none =>
      rw [hp] at h
      simp at h
    | some d =>
      rw [hp] at h
      dsimp only at h
      refine ⟨d, rfl, ?_⟩
      cases hg : storeGet st (encodeKey d) with
      | none => rfl
      | some v =>
        rw [hg] at h
        cases v with
        | bytes b => simp at h
        | snap e2 => simp at h

/-- C10 (witness): a concrete malformed query string. -/
theorem C10_witness :
    parseDate ("not-a-date") = none ∧
    get_day_rates [] ("not-a-date") =
      .error (.DateParseError ("could not parse " ++ "not-a-date" ++ " as NaiveDate")) :=
  ⟨by decide, C10_theorem.1 [] ("not-a-date") (by decide)⟩

end Currencies
